import Mathlib

/-!
# Verification of the yatzy-neural-net core (models.py, training_game.py)

Shallow embedding of the feature-encoding pipeline, the two decision
procedures and the training-data construction of the repository, together
with proofs settling the specification's claims about them.

Numeric conventions: Python/numpy floats are modelled as `ℚ` (with a
separate exact model of IEEE binary64 rounding where a claim depends on
floating-point behaviour), machine integers as `ℤ`/`ℕ`, and numpy masked
arrays as explicit data/mask pairs. Fallible numpy operations (fancy-index
assignment out of range, reshape of an incompatible length) return
`Option`.
-/

namespace Yatzy

/-- One-hot row of width `n` with the 1 at position `k` (`numpy`
`categorical[arange, y] = 1` on a zero row). -/
def oneHot (n : ℕ) (k : ℕ) : List ℚ :=
  (List.range n).map (fun j => if j = k then 1 else 0)

/-- Keras `tf.keras.utils.to_categorical(category, num_classes)` for a scalar
`category`, including numpy's fancy-indexing semantics on the assignment
`categorical[arange(1), y] = 1`: an index `y` with `-num_classes ≤ y <
num_classes` is accepted (negative values wrap around, Python style), any
other index raises `IndexError`, modelled as `none`. -/
def to_categorical (numClasses : ℕ) (category : ℤ) : Option (List ℚ) :=
  if category < (numClasses : ℤ) ∧ -(numClasses : ℤ) ≤ category then
    some (oneHot numClasses (category % (numClasses : ℤ)).toNat)
  else
    none

/-- A numpy masked array of floats: the underlying buffer (`.data`) plus the
per-element boolean mask. `np.asarray` / tensor conversion drops the mask
and exposes `.data`. -/
structure MaskedVec where
  data : List ℚ
  mask : List Bool
  deriving Repr, DecidableEq

/-- The numpy constant `ma.masked` is a zero-dimensional masked array whose
underlying buffer holds `0.0`; arithmetic on it (`ma.masked - 1`) returns
the constant itself, and `np.array(ma.masked, dtype=int)` reads that buffer
as the integer 0. This is the category value that `to_categorical`
receives for a masked die. -/
def maskedConstantData : ℤ := 0

/-- A die position as iterated out of a masked array: a masked entry is
yielded as the `ma.masked` constant (`none`), an unmasked entry as its
integer value. -/
abbrev MaskedDie := Option ℤ

/-- Source `Model.categorize_die`: starts from the empty masked array and, for each
die, appends `to_categorical(6, dice - 1)` wrapped in a masked array whose
mask is the scalar `dice is ma.masked` (broadcast over the 6 entries).
For a masked die, `dice - 1` is again `ma.masked`, so the one-hot is taken
at `maskedConstantData`; the 6-entry block is fully masked. An
`IndexError` from `to_categorical` propagates as `none`. -/
def categorizeStep (acc : MaskedVec) (dice : MaskedDie) : Option MaskedVec :=
  match dice with
  | some v =>
      (to_categorical 6 (v - 1)).map
        (fun oh => MaskedVec.mk (acc.data ++ oh) (acc.mask ++ List.replicate 6 false))
  | none =>
      (to_categorical 6 maskedConstantData).map
        (fun oh => MaskedVec.mk (acc.data ++ oh) (acc.mask ++ List.replicate 6 true))

/-- Loop of `Model.categorize_die` over the iterated die. -/
def categorize_die (die : List MaskedDie) : Option MaskedVec :=
  die.foldlM categorizeStep (MaskedVec.mk [] [])

/-- Source `Model.normalize_final_scores`: divide every final score by 374. -/
def normalize_final_scores (final_scores : List ℚ) : List ℚ :=
  final_scores.map (fun final_score => final_score / 374)

/-- The fixed per-field maxima table of `Model.normalize_score_fields`. -/
def max_scores : List ℚ :=
  [5, 10, 15, 20, 25, 30, 12, 22, 18, 24, 15, 20, 28, 30, 50]

/-- Source `Model.normalize_score_fields`: the comprehension
`[score_fields.data[idx] / max_scores[idx] for idx in range(len(score_fields))]`.
Reading `.data[idx]` drops the mask, so an unfilled field contributes its
placeholder 0. Indexing `max_scores[idx]` raises `IndexError` (modelled as
`none`) when the state is longer than the table. -/
def normalize_score_fields (score_fields : List ℚ) : Option (List ℚ) :=
  (List.range score_fields.length).mapM
    (fun idx => (max_scores.get? idx).map (fun m => score_fields.getD idx 0 / m))

/-- The Python runtime values that can appear where
`decide_dice_throw`'s final filter looks: an entry of a masked array's
`.mask` attribute is a `np.bool_` object, while `ma.masked` is a distinct
singleton object of type `MaskedConstant`. -/
inductive PyVal where
  | npBool (b : Bool)
  | maskedConst
  deriving Repr, DecidableEq

/-- The Python identity test `x is not ma.masked`. -/
def isNotMaskedConstant : PyVal → Bool
  | PyVal.maskedConst => false
  | _ => true

/-- Python `list(map(int, bin(i)[2:].zfill(5)))` read as booleans: the 5 binary
digits of `i`, most significant first (numpy converts the 0/1 ints to the
boolean mask of `ma.masked_array(dice, mask=mask)`). -/
def binMask (i : ℕ) : List Bool :=
  (List.range 5).map (fun j => i / 2 ^ (4 - j) % 2 = 1)

/-- The masked array `ma.masked_array(dice, mask=mask)` as it is iterated by
`categorize_die` inside `predict`: masked positions yield `ma.masked`,
unmasked ones their value. -/
def maskedDice (dice : List ℤ) (mask : List Bool) : List MaskedDie :=
  List.zipWith (fun d m => if m then none else some d) dice mask

/-- The running `best_move` masked array of `decide_dice_throw`: its data
buffer and its mask. `len(best_move)` is the length of the data buffer. -/
structure BestMove where
  data : List ℤ
  mask : List Bool
  deriving Repr, DecidableEq

/-- Source `DiceThrowModel.decide_dice_throw`. `predict` abstracts
`self.predict(inputs)` as a function of the masked die (the
`score_fields` and `throw_number` entries of `inputs` are the same for all
32 candidates, so they are fixed inside `predict`). The loop runs `i`
over `range(32)`, masks the dice with the 5 binary digits of `i`, keeps
the candidate on strict `value > max_value` starting from `max_value = 0`
and `best_move = ma.masked_array([0,1,2,3,4], mask=False)`, and finally
returns the indices `idx` in `range(len(best_move))` whose mask entry
satisfies the identity test `best_move.mask[idx] is not ma.masked`. -/
def diceThrowStep (predict : List MaskedDie → ℚ) (dice : List ℤ)
    (acc : ℚ × BestMove) (i : ℕ) : ℚ × BestMove :=
  let mask := binMask i
  let value := predict (maskedDice dice mask)
  if acc.1 < value then (value, BestMove.mk dice mask) else acc

/-- Loop and final filter of `decide_dice_throw`. -/
def decide_dice_throw (predict : List MaskedDie → ℚ) (dice : List ℤ) : List ℕ :=
  let res := (List.range 32).foldl (diceThrowStep predict dice)
    (0, BestMove.mk [0, 1, 2, 3, 4] (List.replicate 5 false))
  let best_move := res.2
  (List.range best_move.data.length).filter
    (fun idx => isNotMaskedConstant (PyVal.npBool (best_move.mask.getD idx false)))

/-- A possible move `[field_index, score]`. -/
abbrev Move := ℤ × ℤ

/-- Source `ScoreLogModel.decide_score_logging`. `predict` abstracts
`self.predict(inputs)` as a function of `move[0]` (the `die` and
`score_fields` entries are the same for every candidate). The function
first reads `possible_moves[0]` (an `IndexError`, modelled `none`, when
the list is empty), then loops over all candidates keeping the one with
strictly greater predicted value, starting from `max_value = 0`. -/
def scoreLogStep (predict : ℤ → ℚ) (acc : ℚ × Move) (move : Move) : ℚ × Move :=
  let value := predict move.1
  if acc.1 < value then (value, move) else acc

/-- Initial read of `possible_moves[0]` and loop of `decide_score_logging`. -/
def decide_score_logging (predict : ℤ → ℚ) (possible_moves : List Move) : Option Move :=
  match possible_moves with
  | [] => none
  | m0 :: _ => some ((possible_moves.foldl (scoreLogStep predict) (0, m0)).2)

/-- The feature vector assembled by `DiceThrowModel.predict` and handed to
`self.model.predict(input_tensor.reshape(-1, self.num_inputs))`:
`ma.concatenate([die, throw_number, score_fields])` with the mask dropped
at tensor conversion (`np.asarray` exposes `.data`), then the reshape,
which raises (modelled `none`) unless the length is a multiple of the 48
model inputs. Any `IndexError` in the three encoders propagates. -/
def diceThrowPredictInput (die : List MaskedDie) (throw_number : ℤ)
    (score_fields : List ℚ) : Option (List ℚ) :=
  (categorize_die die).bind fun d =>
    (to_categorical 3 throw_number).bind fun t =>
      (normalize_score_fields score_fields).bind fun s =>
        let input_tensor := d.data ++ t ++ s
        if input_tensor.length % 48 = 0 then some input_tensor else none

/-! ## The training game and its recorded history

`TrainingGame.play` (src/training_game.py) drives 15 rounds; in each round
it records the dice after each of the three throws (`add_dice` is called
once per inner-loop iteration for throws 2 and 3 plus once after the loop
for the final hand — with the hand after throw 1 recorded at the first
inner-loop iteration, three calls in all) and records one
`add_scoring(field_index, score)`, then commits the game with the total
score. The dice outcomes, the players' decisions and the final count are
produced by collaborators outside this core (`Yatzy.throw_dice`,
`Player`, `Yatzy.count_points`), so they enter the model as an
environment. -/

/-- The game collaborators outside the core: the hand recorded by the
`k`-th `add_dice` of round `r`, the `(field_index, score)` pair of round
`r`'s `add_scoring`, and the committed total score. -/
structure GameEnv where
  handAt : ℕ → ℕ → List ℤ
  scoringAt : ℕ → Move
  totalScore : ℤ

/-- The history accumulated by one `TrainingGame.play`: the hands recorded
by `add_dice`, the scorings recorded by `add_scoring`, and the final score
passed to `commit_game`. -/
structure PlayHistory where
  dice : List (List ℤ)
  scorings : List Move
  finalScore : ℤ
  deriving Repr

/-- One round of `TrainingGame.play`: `add_dice` after throw 1 (first
inner-loop iteration), after throw 2 (second iteration), and after throw 3
(after the loop), then one `add_scoring`. -/
def playRound (env : GameEnv) (r : ℕ) (h : PlayHistory) : PlayHistory :=
  { h with
    dice := h.dice ++ [env.handAt r 0, env.handAt r 1, env.handAt r 2]
    scorings := h.scorings ++ [env.scoringAt r] }

/-- Source `TrainingGame.play`: clears the history, runs `for round in
range(1, 16)` and commits the game with the counted total score. -/
def play (env : GameEnv) : PlayHistory :=
  let h := (List.range' 1 15).foldl (fun h r => playRound env r h)
    (PlayHistory.mk [] [] 0)
  { h with finalScore := env.totalScore }

/-- Modelled from the spec: `History.get_dice_throw_data` (the `History`
class is not part of the sources under verification; only its caller
`TrainingGame.play` and its consumer `DiceThrowModel.train` are). Per the
spec it returns one entry per recorded throw across the game, with
`outputs` a list of raw final scores — every recorded throw is paired
with the committed final score of its game. -/
def get_dice_throw_data (h : PlayHistory) : List (List ℤ) × List ℚ :=
  (h.dice, h.dice.map (fun _ => (h.finalScore : ℚ)))

/-- Modelled from the spec: `History.get_score_log_data` (the `History`
class is not part of the sources under verification). Per the spec it
returns one entry per recorded round, each paired with the game's raw
final score. -/
def get_score_log_data (h : PlayHistory) : List Move × List ℚ :=
  (h.scorings, h.scorings.map (fun _ => (h.finalScore : ℚ)))

/-- The targets built by `DiceThrowModel.train`:
`outputs = self.normalize_final_scores(data["outputs"])`. -/
def diceThrowTrainTargets (h : PlayHistory) : List ℚ :=
  normalize_final_scores (get_dice_throw_data h).2

/-- The targets built by `ScoreLogModel.train`:
`outputs = self.normalize_final_scores(data["outputs"])`. -/
def scoreLogTrainTargets (h : PlayHistory) : List ℚ :=
  normalize_final_scores (get_score_log_data h).2

/-- A sample training-game environment: every recorded hand is all ones,
every scoring is field 0 with score 0, and the counted total is 187. -/
def sampleEnv : GameEnv :=
  GameEnv.mk (fun _ _ => [1, 1, 1, 1, 1]) (fun _ => (0, 0)) 187

/-! ## Exact model of IEEE binary64 arithmetic

`final_score / 374` in Python divides double-precision floats; the claim
about the `* 374` round-trip depends on that rounding, so it is modelled
exactly: `fl` rounds a rational to the nearest binary64 value (ties to
even significand). Overflow and subnormals are irrelevant at the
magnitudes involved (all values lie well inside the normal range). -/

/-- Fuelled binary logarithm (the fuel only bounds the recursion; `n` itself
is always enough). -/
def log2Aux : ℕ → ℕ → ℕ
  | 0, _ => 0
  | fuel + 1, n => if 2 ≤ n then log2Aux fuel (n / 2) + 1 else 0

/-- Floor of the binary logarithm of a natural number. -/
def natLog2 (n : ℕ) : ℕ :=
  log2Aux n n

/-- Integer power of two as a rational. -/
def pow2 (e : ℤ) : ℚ :=
  if 0 ≤ e then ((2 ^ e.toNat : ℕ) : ℚ) else (((2 : ℕ) ^ (-e).toNat : ℕ) : ℚ)⁻¹

/-- Value `⌊log₂ q⌋` for a positive rational, from the bit lengths of numerator
and denominator. -/
def floorLog2 (q : ℚ) : ℤ :=
  let e : ℤ := (natLog2 q.num.toNat : ℤ) - (natLog2 q.den : ℤ)
  if pow2 e ≤ q then e else e - 1

/-- Round a rational to an integer, ties to even. -/
def roundNearestEvenInt (q : ℚ) : ℤ :=
  let n := ⌊q⌋
  let r := q - (n : ℚ)
  if r < 1 / 2 then n
  else if 1 / 2 < r then n + 1
  else if n % 2 = 0 then n else n + 1

/-- Round a positive rational to 53 significant bits, nearest, ties to
even: the binary64 rounding of a positive value in the normal range. -/
def flPos (q : ℚ) : ℚ :=
  let e := floorLog2 q
  (roundNearestEvenInt (q * pow2 (52 - e)) : ℚ) / pow2 (52 - e)

/-- Binary64 rounding of a rational (normal range). -/
def fl (q : ℚ) : ℚ :=
  if q = 0 then 0 else if 0 < q then flPos q else -flPos (-q)

/-- Source `Model.normalize_final_scores` under Python's actual double-precision
arithmetic: each division `final_score / 374` is correctly rounded. -/
def normalize_final_scores_double (final_scores : List ℚ) : List ℚ :=
  final_scores.map (fun final_score => fl (final_score / 374))

/-! ## Auxiliary lemmas -/

/-- Unfold `to_categorical` on a category inside the documented range. -/
lemma to_categorical_in_range (n : ℕ) (c : ℤ) (h0 : 0 ≤ c) (hn : c < (n : ℤ)) :
    to_categorical n c = some (oneHot n c.toNat) := by
  unfold to_categorical
  rw [if_pos ⟨hn, by omega⟩, Int.emod_eq_of_lt h0 hn]

/-- Length of a one-hot row. -/
lemma oneHot_length (n k : ℕ) : (oneHot n k).length = n := by
  simp [oneHot]

/-- Entry `j < n` of a map over `List.range n`, via `getD`. -/
lemma getD_map_range (n : ℕ) (f : ℕ → ℚ) (j : ℕ) (h : j < n) (d : ℚ) :
    ((List.range n).map f).getD j d = f j := by
  rw [List.getD_eq_getElem?_getD, List.getElem?_map, List.getElem?_range h]
  rfl

/-- Option-valued `mapM` where every element succeeds. -/
lemma mapM_eq_some_map {α β : Type} (f : α → Option β) (g : α → β) :
    ∀ l : List α, (∀ a ∈ l, f a = some (g a)) → l.mapM f = some (l.map g) := by
  intro l
  induction l with
  | nil => intro _; rfl
  | cons a l ih =>
      intro h
      have ha : f a = some (g a) := h a (by simp)
      have hl : l.mapM f = some (l.map g) := ih (fun x hx => h x (by simp [hx]))
      rw [List.mapM_cons, ha, hl]
      rfl

/-- Running `categorize_die`'s loop over fully known in-range dice appends the
one-hot blocks, all unmasked. -/
lemma foldlM_categorizeStep_known (hand : List ℤ) (h : ∀ v ∈ hand, 1 ≤ v ∧ v ≤ 6) :
    ∀ acc : MaskedVec,
      (hand.map some).foldlM categorizeStep acc =
        some (MaskedVec.mk (acc.data ++ hand.flatMap (fun v => oneHot 6 (v - 1).toNat))
          (acc.mask ++ List.replicate (6 * hand.length) false)) := by
  induction hand with
  | nil => intro acc; simp
  | cons v hand ih =>
      intro acc
      have hv := h v (by simp)
      have hto : to_categorical 6 (v - 1) = some (oneHot 6 (v - 1).toNat) :=
        to_categorical_in_range 6 (v - 1) (by omega) (by omega)
      have hstep : categorizeStep acc (some v) =
          some (MaskedVec.mk (acc.data ++ oneHot 6 (v - 1).toNat)
            (acc.mask ++ List.replicate 6 false)) := by
        rw [categorizeStep, hto]
        rfl
      rw [List.map_cons, List.foldlM_cons, hstep]
      show (hand.map some).foldlM categorizeStep _ = _
      rw [ih (fun x hx => h x (List.mem_cons_of_mem _ hx))]
      simp only [List.flatMap_cons, List.length_cons]
      congr 2
      · rw [List.append_assoc]
      · rw [List.append_assoc, ← List.replicate_add]
        congr 1
        ring_nf

/-- Length of the concatenated one-hot blocks of a known hand. -/
lemma flatMap_oneHot_length (l : List ℤ) :
    (l.flatMap (fun d => oneHot 6 (d - 1).toNat)).length = 6 * l.length := by
  induction l with
  | nil => simp
  | cons d l ih =>
      rw [List.flatMap_cons, List.length_append, oneHot_length, ih, List.length_cons]
      omega

/-- On a state of length at most 15, `normalize_score_fields` succeeds with
the element-wise quotients. -/
lemma normalize_score_fields_eq (s : List ℚ) (h : s.length ≤ 15) :
    normalize_score_fields s =
      some ((List.range s.length).map (fun i => s.getD i 0 / max_scores.getD i 0)) := by
  unfold normalize_score_fields
  apply mapM_eq_some_map
  intro i hi
  have hi15 : i < 15 := lt_of_lt_of_le (List.mem_range.mp hi) h
  interval_cases i <;> rfl

/-- A fold preserves any invariant its step preserves. -/
lemma foldl_preserve {α β : Type} (step : β → α → β) (P : β → Prop)
    (hstep : ∀ b a, P b → P (step b a)) :
    ∀ (l : List α) (b : β), P b → P (l.foldl step b) := by
  intro l
  induction l with
  | nil => intro b hb; exact hb
  | cons a l ih => intro b hb; exact ih _ (hstep b a hb)

/-- Each step of `decide_dice_throw` keeps a 5-element data buffer in
`best_move` when the dice hand has 5 elements. -/
lemma diceThrowStep_data_length (predict : List MaskedDie → ℚ) (dice : List ℤ)
    (hlen : dice.length = 5) (acc : ℚ × BestMove) (i : ℕ)
    (h : acc.2.data.length = 5) :
    (diceThrowStep predict dice acc i).2.data.length = 5 := by
  unfold diceThrowStep
  dsimp only
  split
  · exact hlen
  · exact h

/-- The fold of `decide_score_logging` either returns its accumulator
untouched or returns an element of the list whose predicted value it
carries, strictly above the initial running maximum. -/
lemma scoreLog_foldl_cases (f : ℤ → ℚ) :
    ∀ (l : List Move) (acc : ℚ × Move),
      l.foldl (scoreLogStep f) acc = acc ∨
      ((l.foldl (scoreLogStep f) acc).2 ∈ l ∧
        (l.foldl (scoreLogStep f) acc).1 = f (l.foldl (scoreLogStep f) acc).2.1 ∧
        acc.1 < (l.foldl (scoreLogStep f) acc).1) := by
  intro l
  induction l with
  | nil => intro acc; left; rfl
  | cons m l ih =>
      intro acc
      rw [List.foldl_cons]
      by_cases hc : acc.1 < f m.1
      · have hstep : scoreLogStep f acc m = (f m.1, m) := by
          unfold scoreLogStep
          dsimp only
          rw [if_pos hc]
        rw [hstep]
        rcases ih (f m.1, m) with h | ⟨h1, h2, h3⟩
        · right
          rw [h]
          exact ⟨List.mem_cons_self m l, rfl, hc⟩
        · right
          exact ⟨List.mem_cons_of_mem m h1, h2, lt_trans hc h3⟩
      · have hstep : scoreLogStep f acc m = acc := by
          unfold scoreLogStep
          dsimp only
          rw [if_neg hc]
        rw [hstep]
        rcases ih acc with h | ⟨h1, h2, h3⟩
        · left; exact h
        · right; exact ⟨List.mem_cons_of_mem m h1, h2, h3⟩

/-- The running maximum of `decide_score_logging`'s fold dominates the
initial value and every candidate's predicted value. -/
lemma scoreLog_foldl_ub (f : ℤ → ℚ) :
    ∀ (l : List Move) (acc : ℚ × Move),
      acc.1 ≤ (l.foldl (scoreLogStep f) acc).1 ∧
      ∀ m ∈ l, f m.1 ≤ (l.foldl (scoreLogStep f) acc).1 := by
  intro l
  induction l with
  | nil =>
      intro acc
      exact ⟨le_refl _, by intro m hm; cases hm⟩
  | cons m l ih =>
      intro acc
      rw [List.foldl_cons]
      obtain ⟨h1, h2⟩ := ih (scoreLogStep f acc m)
      have hstep_ge_acc : acc.1 ≤ (scoreLogStep f acc m).1 := by
        unfold scoreLogStep
        dsimp only
        split
        · next hlt => exact le_of_lt hlt
        · exact le_refl _
      have hstep_ge_m : f m.1 ≤ (scoreLogStep f acc m).1 := by
        unfold scoreLogStep
        dsimp only
        split
        · exact le_refl _
        · next hlt => exact le_of_not_lt hlt
      refine ⟨le_trans hstep_ge_acc h1, ?_⟩
      intro m' hm'
      rcases List.mem_cons.mp hm' with rfl | hmem
      · exact le_trans hstep_ge_m h1
      · exact h2 m' hmem

/-- When no candidate beats the running maximum, `decide_score_logging`'s
fold leaves the accumulator unchanged. -/
lemma scoreLog_foldl_stay (f : ℤ → ℚ) :
    ∀ (l : List Move) (acc : ℚ × Move), (∀ m ∈ l, f m.1 ≤ acc.1) →
      l.foldl (scoreLogStep f) acc = acc := by
  intro l
  induction l with
  | nil => intro acc _; rfl
  | cons m l ih =>
      intro acc h
      rw [List.foldl_cons]
      have hstep : scoreLogStep f acc m = acc := by
        unfold scoreLogStep
        dsimp only
        rw [if_neg (not_lt.mpr (h m (List.mem_cons_self m l)))]
      rw [hstep]
      exact ih acc (fun x hx => h x (List.mem_cons_of_mem m hx))

/-- Entry counts and final score across the rounds of `TrainingGame.play`. -/
lemma play_foldl_counts (env : GameEnv) :
    ∀ (rounds : List ℕ) (h : PlayHistory),
      (rounds.foldl (fun h r => playRound env r h) h).dice.length =
        h.dice.length + 3 * rounds.length ∧
      (rounds.foldl (fun h r => playRound env r h) h).scorings.length =
        h.scorings.length + rounds.length ∧
      (rounds.foldl (fun h r => playRound env r h) h).finalScore = h.finalScore := by
  intro rounds
  induction rounds with
  | nil => intro h; exact ⟨by simp, by simp, rfl⟩
  | cons r rounds ih =>
      intro h
      rw [List.foldl_cons]
      obtain ⟨h1, h2, h3⟩ := ih (playRound env r h)
      refine ⟨?_, ?_, ?_⟩
      · rw [h1]
        simp [playRound]
        omega
      · rw [h2]
        simp [playRound]
        omega
      · rw [h3]
        simp [playRound]

/-- The training targets of both models are the per-entry constant
finalScore / 374. -/
lemma train_targets_replicate (h : PlayHistory) :
    diceThrowTrainTargets h =
      List.replicate h.dice.length ((h.finalScore : ℚ) / 374) ∧
    scoreLogTrainTargets h =
      List.replicate h.scorings.length ((h.finalScore : ℚ) / 374) := by
  unfold diceThrowTrainTargets scoreLogTrainTargets get_dice_throw_data get_score_log_data
    normalize_final_scores
  constructor <;> simp [List.map_map, Function.comp, List.map_const']

/-! ## Claims -/

/-- C4: for every die value v in 1..6 the die encoder produces a one-hot
vector of length 6 with a single 1 at index v-1 and 0 elsewhere, and
encoding a fully known 5-die hand is the order-preserving concatenation of
the per-die one-hot blocks, a vector of length 30 (all unmasked). -/
theorem C4_known_die_one_hot (v : ℤ) (hv1 : 1 ≤ v) (hv6 : v ≤ 6)
    (hand : List ℤ) (hlen : hand.length = 5) (hall : ∀ d ∈ hand, 1 ≤ d ∧ d ≤ 6) :
    (∃ oh, to_categorical 6 (v - 1) = some oh ∧ oh.length = 6 ∧
        ∀ j : ℕ, j < 6 → oh.getD j 0 = if (j : ℤ) = v - 1 then 1 else 0) ∧
    ∃ vec, categorize_die (hand.map some) = some vec ∧
        vec.data = hand.flatMap (fun d => oneHot 6 (d - 1).toNat) ∧
        vec.data.length = 30 ∧ vec.mask = List.replicate 30 false := by
  constructor
  · refine ⟨oneHot 6 (v - 1).toNat,
      to_categorical_in_range 6 (v - 1) (by omega) (by omega), oneHot_length 6 _, ?_⟩
    intro j hj
    have hget : (oneHot 6 (v - 1).toNat).getD j 0 = if j = (v - 1).toNat then 1 else 0 := by
      unfold oneHot
      exact getD_map_range 6 _ j hj 0
    rw [hget]
    by_cases hcase : (j : ℤ) = v - 1
    · rw [if_pos (by omega), if_pos hcase]
    · rw [if_neg (by omega), if_neg hcase]
  · have h5 := foldlM_categorizeStep_known hand hall (MaskedVec.mk [] [])
    refine ⟨_, h5, by simp, ?_, by simp [hlen]⟩
    show ((MaskedVec.mk [] []).data ++ hand.flatMap fun d => oneHot 6 (d - 1).toNat).length = 30
    rw [List.length_append, flatMap_oneHot_length hand, hlen]
    rfl

/-- Witness for C4 at v = 3 and hand [1,2,3,4,5]. -/
theorem C4_known_die_one_hot_witness :
    ((1:ℤ) ≤ 3 ∧ (3:ℤ) ≤ 6 ∧ ([1,2,3,4,5] : List ℤ).length = 5 ∧
      ∀ d ∈ ([1,2,3,4,5] : List ℤ), 1 ≤ d ∧ d ≤ 6) ∧
    ((∃ oh, to_categorical 6 (3 - 1) = some oh ∧ oh.length = 6 ∧
        ∀ j : ℕ, j < 6 → oh.getD j 0 = if (j : ℤ) = 3 - 1 then 1 else 0) ∧
      ∃ vec, categorize_die (([1,2,3,4,5] : List ℤ).map some) = some vec ∧
        vec.data = ([1,2,3,4,5] : List ℤ).flatMap (fun d => oneHot 6 (d - 1).toNat) ∧
        vec.data.length = 30 ∧ vec.mask = List.replicate 30 false) :=
  ⟨⟨by norm_num, by norm_num, by decide, by decide⟩,
    C4_known_die_one_hot 3 (by norm_num) (by norm_num) [1,2,3,4,5] (by decide) (by decide)⟩

/-- C1: evaluation of `categorize_die` at a hand whose first position is
masked. The claim says the encoder emits the all-zero vector of length 6 at
that position; the code instead records the one-hot of face 1
([1,0,0,0,0,0]) as the underlying data, under an all-true mask, and the
mask is dropped at tensor conversion, so the network-visible encoding of a
masked die coincides with that of a die showing 1 and is not the zero
vector. -/
theorem C1_masked_die_eval :
    categorize_die [none, some 2, some 3, some 4, some 5] =
      some (MaskedVec.mk
        ([1,0,0,0,0,0] ++ [0,1,0,0,0,0] ++ [0,0,1,0,0,0] ++ [0,0,0,1,0,0] ++ [0,0,0,0,1,0])
        (List.replicate 6 true ++ List.replicate 24 false)) ∧
    ((categorize_die [none, some 2, some 3, some 4, some 5]).elim [] MaskedVec.data).take 6 =
      [1, 0, 0, 0, 0, 0] ∧
    ((categorize_die [none, some 2, some 3, some 4, some 5]).elim [] MaskedVec.data).take 6 ≠
      List.replicate 6 (0 : ℚ) ∧
    ((categorize_die [none, some 2, some 3, some 4, some 5]).elim [] MaskedVec.data).take 6 =
      (categorize_die [some 1]).elim [] MaskedVec.data := by
  decide

/-- C6: on every 15-element score-field state the encoder returns the
length-15 vector of element-wise quotients by the fixed per-field maxima
table; an unfilled field (placeholder 0) normalizes to 0 and a filled
value within its field maximum normalizes into [0, 1]. -/
theorem C6_normalize_score_fields (s : List ℚ) (hlen : s.length = 15) :
    max_scores = [5, 10, 15, 20, 25, 30, 12, 22, 18, 24, 15, 20, 28, 30, 50] ∧
    ∃ r, normalize_score_fields s = some r ∧ r.length = 15 ∧
      (∀ i, i < 15 → r.getD i 0 = s.getD i 0 / max_scores.getD i 0) ∧
      (∀ i, i < 15 → s.getD i 0 = 0 → r.getD i 0 = 0) ∧
      (∀ i, i < 15 → 0 ≤ s.getD i 0 → s.getD i 0 ≤ max_scores.getD i 0 →
        0 ≤ r.getD i 0 ∧ r.getD i 0 ≤ 1) := by
  have heq := normalize_score_fields_eq s (by omega)
  have hgetD : ∀ i, i < 15 →
      ((List.range s.length).map (fun i => s.getD i 0 / max_scores.getD i 0)).getD i 0 =
        s.getD i 0 / max_scores.getD i 0 := by
    intro i hi
    exact getD_map_range s.length _ i (by omega) 0
  have hpos : ∀ i, i < 15 → 0 < max_scores.getD i 0 := by decide
  refine ⟨rfl, _, heq, by simp [hlen], hgetD, ?_, ?_⟩
  · intro i hi hzero
    rw [hgetD i hi, hzero, zero_div]
  · intro i hi h0 hle
    rw [hgetD i hi]
    exact ⟨div_nonneg h0 (le_of_lt (hpos i hi)), (div_le_one (hpos i hi)).mpr hle⟩

/-- Witness for C6 at the all-unfilled state (15 zero placeholders). -/
theorem C6_normalize_score_fields_witness :
    (List.replicate 15 (0 : ℚ)).length = 15 ∧
    (max_scores = [5, 10, 15, 20, 25, 30, 12, 22, 18, 24, 15, 20, 28, 30, 50] ∧
      ∃ r, normalize_score_fields (List.replicate 15 (0 : ℚ)) = some r ∧ r.length = 15 ∧
        (∀ i, i < 15 → r.getD i 0 =
          (List.replicate 15 (0 : ℚ)).getD i 0 / max_scores.getD i 0) ∧
        (∀ i, i < 15 → (List.replicate 15 (0 : ℚ)).getD i 0 = 0 → r.getD i 0 = 0) ∧
        (∀ i, i < 15 → 0 ≤ (List.replicate 15 (0 : ℚ)).getD i 0 →
          (List.replicate 15 (0 : ℚ)).getD i 0 ≤ max_scores.getD i 0 →
          0 ≤ r.getD i 0 ∧ r.getD i 0 ≤ 1)) :=
  ⟨by decide, C6_normalize_score_fields (List.replicate 15 0) (by decide)⟩

/-- C7 counterexample: under the IEEE-754 double-precision arithmetic the
code actually performs (Python floats), the round-trip fails already at
s = 1: the double nearest to 1/374 is 6165355639608807·2⁻⁶¹, and
multiplying it back by 374 rounds to (2⁵³−1)/2⁵³ ≠ 1. -/
theorem C7_double_round_trip_fails :
    fl ((normalize_final_scores_double [1]).getD 0 0 * 374) ≠ (1 : ℚ) := by
  with_unfolding_all decide

/-- C7 (amended): in exact rational arithmetic the outcome encoding
round-trips: for every integer s in [0, 374], dividing by 374 and
multiplying back by 374 returns s exactly. -/
theorem C7_exact_round_trip (s : ℤ) (_h0 : 0 ≤ s) (_h374 : s ≤ 374) :
    (normalize_final_scores [(s : ℚ)]).getD 0 0 * 374 = (s : ℚ) := by
  show (s : ℚ) / 374 * 374 = (s : ℚ)
  exact div_mul_cancel₀ _ (by norm_num)

/-- Witness for the amended C7 at s = 187. -/
theorem C7_exact_round_trip_witness :
    (0 : ℤ) ≤ 187 ∧ (187 : ℤ) ≤ 374 ∧
    (normalize_final_scores [((187 : ℤ) : ℚ)]).getD 0 0 * 374 = ((187 : ℤ) : ℚ) :=
  ⟨by norm_num, by norm_num, C7_exact_round_trip 187 (by norm_num) (by norm_num)⟩

/-- C8 counterexample: two out-of-range inputs that are not rejected. The
out-of-range die value 0 is silently encoded as the one-hot at index 5
(numpy wraps the negative fancy index 0 - 1 = -1), and a 13-element dice
hand passes `DiceThrowModel.predict`'s reshape (feature length
6·13 + 18 = 96 = 2·48), so neither fails before inference as the claim
requires. -/
theorem C8_out_of_range_accepted :
    categorize_die [some 0] =
      some (MaskedVec.mk [0, 0, 0, 0, 0, 1] (List.replicate 6 false)) ∧
    (diceThrowPredictInput ((List.replicate 13 (1 : ℤ)).map some) 0
        (List.replicate 15 0)).isSome = true := by
  constructor
  · decide
  · with_unfolding_all decide

/-- C8 (amended): encoding fails (with a numpy `IndexError`, before any
inference call) exactly when a one-hot fancy index falls outside numpy's
wrap-around range: die values outside [-5, 6], field indices outside
[-15, 14], throw indices outside [-3, 2]. Out-of-domain values inside
those ranges are silently wrapped to the one-hot at index (value mod
num_classes) rather than rejected. A dice hand of in-range values is
accepted by `DiceThrowModel.predict`'s reshape exactly when its length is
congruent to 5 mod 8 (feature length 6k + 18 divisible by 48); in
particular in-range inputs (5 dice, throw 0..2, 15 fields) are never
rejected. -/
theorem C8_amended_failure_semantics :
    (∀ v : ℤ, 6 < v ∨ v < -5 → categorize_die [some v] = none) ∧
    (∀ v : ℤ, -5 ≤ v → v ≤ 0 → to_categorical 6 (v - 1) = some (oneHot 6 (v + 5).toNat)) ∧
    (∀ f : ℤ, 15 ≤ f ∨ f < -15 → to_categorical 15 f = none) ∧
    (∀ t : ℤ, 3 ≤ t ∨ t < -3 → to_categorical 3 t = none) ∧
    (∀ die : List ℤ, (∀ v ∈ die, 1 ≤ v ∧ v ≤ 6) → ∀ t : ℤ, 0 ≤ t → t ≤ 2 →
      ∀ s : List ℚ, s.length = 15 →
        ((diceThrowPredictInput (die.map some) t s).isSome ↔ die.length % 8 = 5)) := by
  refine ⟨?_, ?_, ?_, ?_, ?_⟩
  · intro v hv
    have hnone : to_categorical 6 (v - 1) = none := by
      unfold to_categorical
      split
      · next h => exfalso; omega
      · rfl
    simp [categorize_die, categorizeStep, hnone]
  · intro v h5 h0
    unfold to_categorical
    rw [if_pos (by omega)]
    congr 2
    omega
  · intro f hf
    unfold to_categorical
    split
    · next h => exfalso; omega
    · rfl
  · intro t ht
    unfold to_categorical
    split
    · next h => exfalso; omega
    · rfl
  · intro die hdie t ht0 ht2 s hs
    have hcat := foldlM_categorizeStep_known die hdie (MaskedVec.mk [] [])
    have ht : to_categorical 3 t = some (oneHot 3 t.toNat) :=
      to_categorical_in_range 3 t ht0 (by omega)
    have hns := normalize_score_fields_eq s (by omega)
    unfold diceThrowPredictInput categorize_die
    rw [hcat, ht, hns]
    simp only [Option.some_bind, List.length_append, List.length_nil,
      flatMap_oneHot_length, oneHot_length, List.length_map, List.length_range, hs]
    split
    · next hcond =>
        simp only [Option.isSome_some, true_iff]
        obtain ⟨m, hm⟩ := Nat.dvd_of_mod_eq_zero hcond
        omega
    · next hcond =>
        simp only [Option.isSome_none, Bool.false_eq_true, false_iff]
        intro hk
        obtain ⟨c, hc⟩ : ∃ c, die.length = 8 * c + 5 := ⟨die.length / 8, by omega⟩
        exact hcond (by omega)

/-- Witness for the amended C8: die 7 rejected, die 0 wrapped to one-hot
index 5, field index 15 and throw index 3 rejected, and the in-range
5-dice call accepted by the reshape. -/
theorem C8_amended_failure_semantics_witness :
    categorize_die [some 7] = none ∧
    to_categorical 6 ((0 : ℤ) - 1) = some (oneHot 6 ((0 : ℤ) + 5).toNat) ∧
    to_categorical 15 15 = none ∧
    to_categorical 3 3 = none ∧
    ((diceThrowPredictInput ((List.replicate 5 (1 : ℤ)).map some) 0
        (List.replicate 15 0)).isSome ↔ (List.replicate 5 (1 : ℤ)).length % 8 = 5) :=
  ⟨C8_amended_failure_semantics.1 7 (Or.inl (by norm_num)),
   C8_amended_failure_semantics.2.1 0 (by norm_num) le_rfl,
   C8_amended_failure_semantics.2.2.1 15 (Or.inl le_rfl),
   C8_amended_failure_semantics.2.2.2.1 3 (Or.inl le_rfl),
   C8_amended_failure_semantics.2.2.2.2 (List.replicate 5 1) (by decide) 0 le_rfl
     (by norm_num) (List.replicate 15 0) (by decide)⟩

set_option maxRecDepth 20000 in
/-- C2: evaluation of `decide_dice_throw` at failing inputs. With a
predictor returning 0 for every candidate (no candidate strictly exceeds
the zero baseline) the claim says the default is re-throw none, the empty
index list; the code returns [0,1,2,3,4] (re-throw all). With a predictor
whose unique strict maximum is candidate 00001 (only die position 4
masked) the claim says the returned subset is [4]; the code still returns
[0,1,2,3,4], because the final filter condition
`best_move.mask[idx] is not ma.masked` compares a numpy boolean with the
masked constant and holds at every index. -/
theorem C2_decide_dice_throw_eval :
    decide_dice_throw (fun _ => 0) [1, 1, 1, 1, 1] = [0, 1, 2, 3, 4] ∧
    decide_dice_throw (fun _ => 0) [1, 1, 1, 1, 1] ≠ [] ∧
    decide_dice_throw
        (fun d => if d = maskedDice [1, 1, 1, 1, 1] (binMask 1) then 1 else 0)
        [1, 1, 1, 1, 1] = [0, 1, 2, 3, 4] ∧
    decide_dice_throw
        (fun d => if d = maskedDice [1, 1, 1, 1, 1] (binMask 1) then 1 else 0)
        [1, 1, 1, 1, 1] ≠ [4] := by
  refine ⟨?_, ?_, ?_, ?_⟩ <;> with_unfolding_all decide

/-- C10: whenever some candidate's predicted value strictly exceeds zero
during the search of `decide_dice_throw` over a 5-die hand, the returned
list of die positions is the full list [0,1,2,3,4], irrespective of which
candidate achieved the maximum and of the predictor's values, because the
final filter condition (a boolean mask entry compared with
`is not ma.masked`) holds for every one of the five positions. -/
theorem C10_full_list_returned (predict : List MaskedDie → ℚ) (dice : List ℤ)
    (hlen : dice.length = 5)
    (hex : ∃ i, i < 32 ∧ 0 < predict (maskedDice dice (binMask i))) :
    decide_dice_throw predict dice = [0, 1, 2, 3, 4] := by
  unfold decide_dice_throw
  dsimp only
  have h5 : ((List.range 32).foldl (diceThrowStep predict dice)
      (0, BestMove.mk [0, 1, 2, 3, 4] (List.replicate 5 false))).2.data.length = 5 :=
    foldl_preserve (diceThrowStep predict dice) (fun b => b.2.data.length = 5)
      (fun b a hb => diceThrowStep_data_length predict dice hlen b a hb)
      (List.range 32) _ rfl
  rw [h5]
  have hfil : ∀ (m : List Bool),
      (List.range 5).filter
        (fun idx => isNotMaskedConstant (PyVal.npBool (m.getD idx false))) =
        List.range 5 := by
    intro m
    apply List.filter_eq_self.mpr
    intro a _
    rfl
  rw [hfil]
  rfl

/-- Witness for C10: the spec's scenario predictor counting masked
positions, on the hand [1,2,3,4,5]; candidate 31 (all masked) has value
5 > 0. -/
theorem C10_full_list_returned_witness :
    ([1, 2, 3, 4, 5] : List ℤ).length = 5 ∧
    (∃ i, i < 32 ∧ 0 <
      (fun d : List MaskedDie => ((d.filter Option.isNone).length : ℚ))
        (maskedDice [1, 2, 3, 4, 5] (binMask 31))) ∧
    decide_dice_throw (fun d => ((d.filter Option.isNone).length : ℚ)) [1, 2, 3, 4, 5] =
      [0, 1, 2, 3, 4] :=
  ⟨rfl, ⟨31, by norm_num, by with_unfolding_all decide⟩,
    C10_full_list_returned (fun d => ((d.filter Option.isNone).length : ℚ)) [1, 2, 3, 4, 5]
      rfl ⟨31, by norm_num, by with_unfolding_all decide⟩⟩

/-- C3: for every non-empty possible_moves, decide_score_logging returns an
element drawn verbatim from possible_moves, never a synthesized pair; when
some candidate's predicted value strictly exceeds the zero baseline the
returned move attains the maximum predicted value over all candidates, and
when none does it is the first candidate in the supplied order. -/
theorem C3_decide_score_logging_spec (predict : ℤ → ℚ) (m0 : Move) (rest : List Move) :
    ∃ m, decide_score_logging predict (m0 :: rest) = some m ∧
      m ∈ m0 :: rest ∧
      ((∀ m' ∈ m0 :: rest, predict m'.1 ≤ 0) → m = m0) ∧
      ((∃ m' ∈ m0 :: rest, 0 < predict m'.1) →
        ∀ m' ∈ m0 :: rest, predict m'.1 ≤ predict m.1) := by
  refine ⟨((m0 :: rest).foldl (scoreLogStep predict) (0, m0)).2, rfl, ?_, ?_, ?_⟩
  · rcases scoreLog_foldl_cases predict (m0 :: rest) (0, m0) with h | ⟨h1, _, _⟩
    · rw [h]
      exact List.mem_cons_self m0 rest
    · exact h1
  · intro hall
    have hstay := scoreLog_foldl_stay predict (m0 :: rest) (0, m0)
      (fun m hm => hall m hm)
    rw [hstay]
  · rintro ⟨mw, hmw, hmw0⟩ m' hm'
    obtain ⟨_, hub⟩ := scoreLog_foldl_ub predict (m0 :: rest) (0, m0)
    rcases scoreLog_foldl_cases predict (m0 :: rest) (0, m0) with h | ⟨_, h2, _⟩
    · exfalso
      have := hub mw hmw
      rw [h] at this
      exact absurd (lt_of_lt_of_le hmw0 this) (lt_irrefl 0)
    · rw [← h2]
      exact hub m' hm'

/-- Witness for C3 with a predictor preferring field 4 on the moves
[(3,10), (4,20)]. -/
theorem C3_decide_score_logging_spec_witness :
    ∃ m, decide_score_logging (fun f => if f = 4 then 1 else 0) [(3, 10), (4, 20)] =
        some m ∧
      m ∈ [((3 : ℤ), (10 : ℤ)), (4, 20)] ∧
      ((∀ m' ∈ [((3 : ℤ), (10 : ℤ)), (4, 20)],
          (if m'.1 = 4 then (1 : ℚ) else 0) ≤ 0) → m = (3, 10)) ∧
      ((∃ m' ∈ [((3 : ℤ), (10 : ℤ)), (4, 20)], 0 < if m'.1 = 4 then (1 : ℚ) else 0) →
        ∀ m' ∈ [((3 : ℤ), (10 : ℤ)), (4, 20)],
          (if m'.1 = 4 then (1 : ℚ) else 0) ≤ if m.1 = 4 then (1 : ℚ) else 0) :=
  C3_decide_score_logging_spec (fun f => if f = 4 then 1 else 0) (3, 10) [(4, 20)]

/-- C9: decide_score_logging reads possible_moves[0] before the loop, so a
call fails with an index error (modelled as `none`) exactly when
possible_moves is empty; under the non-emptiness precondition the failure
branch is unreachable. -/
theorem C9_decide_score_logging_empty (predict : ℤ → ℚ) (possible_moves : List Move) :
    decide_score_logging predict possible_moves = none ↔ possible_moves = [] := by
  cases possible_moves with
  | nil => simp [decide_score_logging]
  | cons m0 rest => simp [decide_score_logging]

/-- C5: every completed training game records exactly 45 dice-rethrow
entries (15 rounds times 3 throws) and exactly 15 field-choice entries
(one per round), and training pairs every one of them with the identical
target finalScore / 374; a final score of 187 gives the target 1/2 for all
of them. -/
theorem C5_training_targets (env : GameEnv) :
    (get_dice_throw_data (play env)).1.length = 45 ∧
    (get_score_log_data (play env)).1.length = 15 ∧
    diceThrowTrainTargets (play env) =
      List.replicate 45 ((env.totalScore : ℚ) / 374) ∧
    scoreLogTrainTargets (play env) =
      List.replicate 15 ((env.totalScore : ℚ) / 374) ∧
    (env.totalScore = 187 →
      diceThrowTrainTargets (play env) = List.replicate 45 (1 / 2) ∧
      scoreLogTrainTargets (play env) = List.replicate 15 (1 / 2)) := by
  obtain ⟨hd, hsc, _⟩ :=
    play_foldl_counts env (List.range' 1 15) (PlayHistory.mk [] [] 0)
  have hdice : (play env).dice.length = 45 := by
    unfold play
    dsimp only
    rw [hd]
    simp
  have hscor : (play env).scorings.length = 15 := by
    unfold play
    dsimp only
    rw [hsc]
    simp
  have hfin : (play env).finalScore = env.totalScore := rfl
  obtain ⟨ht1, ht2⟩ := train_targets_replicate (play env)
  rw [hdice] at ht1
  rw [hscor] at ht2
  rw [hfin] at ht1 ht2
  refine ⟨?_, ?_, ht1, ht2, ?_⟩
  · exact hdice
  · exact hscor
  · intro h187
    rw [ht1, ht2, h187]
    norm_num

/-- Witness for C5 at the sample environment (final score 187). -/
theorem C5_training_targets_witness :
    (get_dice_throw_data (play sampleEnv)).1.length = 45 ∧
    (get_score_log_data (play sampleEnv)).1.length = 15 ∧
    diceThrowTrainTargets (play sampleEnv) = List.replicate 45 (1 / 2) ∧
    scoreLogTrainTargets (play sampleEnv) = List.replicate 15 (1 / 2) :=
  ⟨(C5_training_targets sampleEnv).1, (C5_training_targets sampleEnv).2.1,
    ((C5_training_targets sampleEnv).2.2.2.2 rfl).1,
    ((C5_training_targets sampleEnv).2.2.2.2 rfl).2⟩

end Yatzy
